import Mathlib

/-!
Shallow embedding of the Rummy card game engine (`main.py`).

Encoding (from the source header):
  suits: Clubs => 0, Diamonds => 1, Hearts => 2, Spades => 3, None => 4
  ranks: Ace => 1, ..., 10 => 10, Jack => 11, Queen => 12, King => 13, Joker => 14

Python code that can raise (out-of-range indexing, `pop` on a bad index,
reading an unbound variable) is modelled with `Option`: `none` is a raised
exception.  Python's negative indexing (`h[-1]`, `pop(-1)`) is modelled
explicitly.
-/

@[ext]
structure Card where
  suit : Nat
  rank : Nat
deriving DecidableEq, Repr

/-- `card.rank == 14 or card.rank == wild_card.rank`: wildness test used by
both validators (the wild card is itself a `Card` drawn from the deck). -/
def isWildFor (wc c : Card) : Bool := c.rank == 14 || c.rank == wc.rank

/-- Python `hand[ind-1]` for a submitted 1-based index `ind : Nat`:
for `ind ≥ 1` this reads 0-based position `ind - 1` (raising `IndexError`
when out of range, modelled as `none`); for `ind = 0` it reads `hand[-1]`,
the LAST card of the hand (or raises on an empty hand). -/
def pyIndex (h : List Card) (ind : Nat) : Option Card :=
  if ind = 0 then h.getLast? else h[ind - 1]?

/-- `cards = [hand[ind-1] for ind in cards_ind]`; `none` if any index raises. -/
def selectCards (h : List Card) (inds : List Nat) : Option (List Card) :=
  inds.mapM (pyIndex h)

/-- The wild-removal pass of `is_valid_set`:
`for i, card in enumerate(cards): if wild(card): joker_counter += 1; cards.pop(i)`.
Popping the element currently under the iterator makes the iterator skip the
card that slides into its position, so the card immediately after a removed
wild is never examined.  Returns (remaining cards, counted wilds). -/
def setWildPass (wc : Card) : List Card → List Card × Nat
  | [] => ([], 0)
  | [c] => if isWildFor wc c then ([], 1) else ([c], 0)
  | c :: d :: rest =>
    if isWildFor wc c then
      let p := setWildPass wc rest
      (d :: p.1, p.2 + 1)
    else
      let p := setWildPass wc (d :: rest)
      (c :: p.1, p.2)

/-- `is_valid_set(hand, cards_ind, wild_card)`; result `[isValid]` when fewer
than 3 indices, else `[isValid, isNatural]` where `isValid` is
`len(set(card.rank for card in cards)) == 1` on the cards left by
`setWildPass` and `isNatural` is `joker_counter == 0`. -/
def is_valid_set (hand : List Card) (inds : List Nat) (wc : Card) :
    Option (List Bool) :=
  if inds.length < 3 then some [false]
  else
    (selectCards hand inds).map fun cards =>
      let p := setWildPass wc cards
      [((p.1.map Card.rank).dedup.length == 1), (p.2 == 0)]

/-- The wild-removal pass of `is_valid_run`:
`for i in range(len(cards)): if wild(cards[i-joker_counter]): cards.pop(i-joker_counter); joker_counter += 1`.
The `i - joker_counter` offset compensates for the shift after each pop, so
every card is examined and every wild card is removed exactly once. -/
def runWildPass (wc : Card) : List Card → List Card × Nat
  | [] => ([], 0)
  | c :: l =>
    let p := runWildPass wc l
    if isWildFor wc c then (p.1, p.2 + 1) else (c :: p.1, p.2)

/-- Python's stable `cards.sort(key = lambda card: (card.suit, card.rank))`. -/
def suitRankLE (c d : Card) : Prop :=
  c.suit < d.suit ∨ (c.suit = d.suit ∧ c.rank ≤ d.rank)

instance : DecidableRel suitRankLE := fun _ _ =>
  inferInstanceAs (Decidable (_ ∨ _))

/-- The consecutive-pair walk of `is_valid_run`, carrying the remaining
`wild_card_counter` (an `Int`, as in Python; it is only ever decremented by
`cards[i].rank - cards[i-1].rank - 1`).  `prev` is `cards[i-1]`. -/
def runWalk : Int → Card → List Card → Bool
  | _, _, [] => true
  | budget, prev, c :: t =>
    if c.suit ≠ prev.suit ∨ c.rank = prev.rank then false
    else if c.rank = prev.rank + 1 then runWalk budget c t
    else if (c.rank : Int) ≤ budget + (prev.rank : Int) + 1 then
      runWalk (budget - ((c.rank : Int) - (prev.rank : Int) - 1)) c t
    else false

/-- `for i in range(1, len(cards))`: the walk over the sorted card list. -/
def runScan (budget : Int) : List Card → Bool
  | [] => true
  | c :: t => runWalk budget c t

/-- `is_valid_run(hand, cards_ind, wild_card)`. -/
def is_valid_run (hand : List Card) (inds : List Nat) (wc : Card) :
    Option (List Bool) :=
  if inds.length < 3 then some [false]
  else
    (selectCards hand inds).map fun cards =>
      let p := runWildPass wc cards
      let sorted := p.1.insertionSort suitRankLE
      [runScan (p.2 : Int) sorted, (p.2 == 0)]

/-- `checkForWin(hand, atleast_one_natrual)`. -/
def checkForWin (hand : List Card) (atleastOneNatural : Bool) : Bool :=
  (hand.length == 0) && atleastOneNatural

/-- Python `h[k]` for an arbitrary `Int` index (negative indexes from the
end; out of range raises). -/
def pyNth (h : List Card) (k : Int) : Option Card :=
  let k2 := if k < 0 then k + h.length else k
  if 0 ≤ k2 ∧ k2 < (h.length : Int) then h[k2.toNat]? else none

/-- Python `h.pop(k)` (returns the shortened list; raises when out of range,
negative indexes from the end). -/
def pyPop (h : List Card) (k : Int) : Option (List Card) :=
  let k2 := if k < 0 then k + h.length else k
  if 0 ≤ k2 ∧ k2 < (h.length : Int) then some (h.eraseIdx k2.toNat) else none

/-- The removal loop run after a group is accepted:
`deleted_counter = 0; card_ind.sort(); for i in card_ind: player_hand.pop(i-1-deleted_counter); deleted_counter += 1`. -/
def popLoop : List Card → List Nat → Nat → Option (List Card)
  | h, [], _ => some h
  | h, i :: rest, d =>
    match pyPop h ((i : Int) - 1 - d) with
    | none => none
    | some h2 => popLoop h2 rest (d + 1)

/-- Removal of an accepted group from the working hand (sort the submitted
indices ascending, then pop position `i - 1 - deleted_counter` for each). -/
def removeGroup (hand : List Card) (inds : List Nat) : Option (List Card) :=
  popLoop hand (inds.insertionSort (· ≤ ·)) 0

/-! ## The win-check sub-phase of `play` (`check_for_win == "y"`) -/

/-- State of one win-check sub-phase.  `real` is `player.hand` (the real
hand), `working` is `player_hand = copy.deepcopy(player.hand)`,
`hasNatural` is `has_atleast_one_natural`, and `setFlag` is the Python
variable `set_flag`: `none` while it is still unbound (reading it then is a
`NameError`). -/
structure WinState where
  real : List Card
  working : List Card
  hasNatural : Bool
  setFlag : Option (List Bool)
deriving DecidableEq, Repr

/-- One menu choice inside the win-check loop: `1` check a set, `2` check a
run, `3` reset cards, `0`/other exit. -/
inductive WinCmd where
  | cset (inds : List Nat)
  | crun (inds : List Nat)
  | creset
  | cexit
deriving DecidableEq, Repr

inductive WinOutcome where
  | won
  | exited
  | crashed
deriving DecidableEq, Repr

/-- Result of one loop iteration: the sub-phase either stops (win, exit or
exception) in some state, or continues. -/
inductive StepRes where
  | stop (s : WinState) (o : WinOutcome)
  | go (s : WinState)
deriving DecidableEq, Repr

/-- The state a step result carries. -/
def stepState : StepRes → WinState
  | .stop s _ => s
  | .go s => s

/-- One iteration of the win-check loop body, per the `match (check_type)` in
`play`.  The faithful quirk: after a VALID RUN the code tests `set_flag[1]` —
the naturalness of the most recent SET validation — not `run_flag[1]`; if
`set_flag` is unbound this is a `NameError`, and if it holds the short
result `[False]` of a sub-3-index set check it is an `IndexError` (both
modelled as a `.crashed` stop). -/
def winStep (wc : Card) (s : WinState) : WinCmd → StepRes
  | .cexit => .stop s .exited
  | .creset => .go { s with working := s.real }
  | .cset inds =>
    match is_valid_set s.working inds wc with
    | none => .stop s .crashed
    | some flag =>
      if flag.getD 0 false then
        match removeGroup s.working inds with
        | none => .stop { s with setFlag := some flag } .crashed
        | some h2 =>
          if checkForWin h2 (s.hasNatural || flag.getD 1 false) then
            .stop
              { s with
                setFlag := some flag
                working := h2
                hasNatural := s.hasNatural || flag.getD 1 false } .won
          else
            .go
              { s with
                setFlag := some flag
                working := h2
                hasNatural := s.hasNatural || flag.getD 1 false }
      else .go { s with setFlag := some flag }
  | .crun inds =>
    match is_valid_run s.working inds wc with
    | none => .stop s .crashed
    | some flag =>
      if flag.getD 0 false then
        match removeGroup s.working inds with
        | none => .stop s .crashed
        | some h2 =>
          match s.setFlag with
          | none => .stop s .crashed
          | some [] => .stop s .crashed
          | some [_] => .stop s .crashed
          | some (_ :: natSet :: _) =>
            if checkForWin h2 (s.hasNatural || natSet) then
              .stop
                { s with
                  working := h2
                  hasNatural := s.hasNatural || natSet } .won
            else
              .go
                { s with
                  working := h2
                  hasNatural := s.hasNatural || natSet }
      else .go s

/-- The `while len(player_hand) > 0` loop of the win-check sub-phase, fed a
list of menu choices (an exhausted list models the player stopping). -/
def runWinCheck (wc : Card) : WinState → List WinCmd → WinState × WinOutcome
  | s, [] => (s, .exited)
  | s, cmd :: rest =>
    if s.working.length = 0 then (s, .exited)
    else
      match winStep wc s cmd with
      | .stop s2 o => (s2, o)
      | .go s2 => runWinCheck wc s2 rest

/-! ## Draw phase and deck recycling (`play`) -/

/-- `Player.remove_card(ind)`: read `hand[ind]` and `pop(ind)`. -/
def remove_card (hand : List Card) (ind : Int) : Option (Card × List Card) :=
  match pyNth hand ind, pyPop hand ind with
  | some c, some h2 => some (c, h2)
  | _, _ => none

/-- The discard-pile draw branch: `drawn_card = discard_card_pile.pop()`,
then `discardCardFromHand` removes `hand[choice - 1]` from the CURRENT hand
and appends it to the pile, and only afterwards `player.add_card(drawn_card)`
appends the drawn card to the hand.  `choice` is the 1-based index typed by
the player.  Returns (new hand, new discard pile). -/
def discardDrawStep (hand pile : List Card) (choice : Nat) :
    Option (List Card × List Card) :=
  match pile.getLast? with
  | none => none
  | some drawn =>
    match remove_card hand ((choice : Int) - 1) with
    | none => none
    | some (disc, hand2) => some (hand2 ++ [drawn], pile.dropLast ++ [disc])

/-- Deck recycling when the deck is empty at a deck draw:
`top = discard_card_pile.pop(); deck.cards = deepcopy(discard_card_pile);
deck._shuffle_card(); discard_card_pile.clear(); discard_card_pile.append(top)`.
The shuffle is abstracted as a function parameter.  Returns
(new deck, new discard pile). -/
def recycleDiscard (shuffle : List Card → List Card) (pile : List Card) :
    Option (List Card × List Card) :=
  match pile.getLast? with
  | none => none
  | some top => some (shuffle pile.dropLast, [top])

/-- Total number of cards held in a list of hands. -/
def sumHands (hands : List (List Card)) : Nat := (hands.map List.length).sum

/-! ## Spec-side predicates (formalising the wording of the claims) -/

/-- Non-wild cards of a selection. -/
def nonWilds (wc : Card) (cards : List Card) : List Card :=
  cards.filter fun c => !isWildFor wc c

/-- Number of wild cards in a selection. -/
def wildCount (wc : Card) (cards : List Card) : Nat :=
  (cards.filter (isWildFor wc)).length

/-- All cards in the list share one suit. -/
def sameSuit (l : List Card) : Prop := ∀ c ∈ l, ∀ d ∈ l, c.suit = d.suit

instance (l : List Card) : Decidable (sameSuit l) :=
  inferInstanceAs (Decidable (∀ c ∈ l, ∀ d ∈ l, c.suit = d.suit))

/-- All cards in the list share one rank. -/
def sameRank (l : List Card) : Prop := ∀ c ∈ l, ∀ d ∈ l, c.rank = d.rank

instance (l : List Card) : Decidable (sameRank l) :=
  inferInstanceAs (Decidable (∀ c ∈ l, ∀ d ∈ l, c.rank = d.rank))

/-- Adjacent-pair requirement of a run: same suit, strictly rising rank. -/
def pairOK (a b : Card) : Prop := a.suit = b.suit ∧ a.rank < b.rank

instance (a b : Card) : Decidable (pairOK a b) :=
  inferInstanceAs (Decidable (_ ∧ _))

/-- A `Decidable` instance for chains that reduces inside the kernel (the
library one is built with tactics and gets stuck under `decide`). -/
instance decChainCard {R : Card → Card → Prop} [DecidableRel R] :
    (l : List Card) → Decidable (List.Chain' R l)
  | [] => decidable_of_iff True (by simp)
  | [_] => decidable_of_iff True (by simp)
  | a :: b :: t =>
    have : Decidable (List.Chain' R (b :: t)) := decChainCard (b :: t)
    decidable_of_iff (R a b ∧ List.Chain' R (b :: t)) List.chain'_cons.symm

/-- Sum over consecutive pairs of `rank_next - rank_prev - 1`: the number of
wild cards needed to fill all internal gaps of a rank-sorted run. -/
def gapSumZ : List Card → Int
  | [] => 0
  | [_] => 0
  | a :: b :: t => ((b.rank : Int) - (a.rank : Int) - 1) + gapSumZ (b :: t)

/-- Sorting by rank only (ascending), as the claim words it. -/
def rankLE (c d : Card) : Prop := c.rank ≤ d.rank

instance : DecidableRel rankLE := fun _ _ =>
  inferInstanceAs (Decidable (_ ≤ _))

/-- The run validity condition as claim C3 words it: all non-wild cards share
one suit; after sorting the non-wild cards by rank ascending no two have
equal rank; and the wild cards needed to fill all internal gaps fit in the
total wild budget of the selection. -/
def specRunValid (wc : Card) (cards : List Card) : Prop :=
  sameSuit (nonWilds wc cards) ∧
  List.Chain' (fun a b => a.rank < b.rank)
    ((nonWilds wc cards).insertionSort rankLE) ∧
  gapSumZ ((nonWilds wc cards).insertionSort rankLE) ≤ (wildCount wc cards : Int)

instance (wc : Card) (cards : List Card) : Decidable (specRunValid wc cards) :=
  inferInstanceAs (Decidable (_ ∧ _ ∧ _))

/-- The set validity condition as claim C1 words it: all non-wild cards share
the same rank, the non-wild plus wild counts add up to the selection size,
and duplicate indices are rejected. -/
def specSetValid (wc : Card) (inds : List Nat) (cards : List Card) : Prop :=
  sameRank (nonWilds wc cards) ∧
  (nonWilds wc cards).length + wildCount wc cards = inds.length ∧
  inds.Nodup

instance (wc : Card) (inds : List Nat) (cards : List Card) :
    Decidable (specSetValid wc inds cards) :=
  inferInstanceAs (Decidable (_ ∧ _ ∧ _))

/-- The reference removal semantics of claim C5: keep exactly the cards whose
1-based position (counted from `p + 1`) is not among the submitted indices. -/
def keepNotIn : List Card → Nat → List Nat → List Card
  | [], _, _ => []
  | c :: t, p, s =>
    if (p + 1) ∈ s then keepNotIn t (p + 1) s else c :: keepNotIn t (p + 1) s

/-- Removing highest-index-first: sort the submitted indices descending and
pop position `i - 1` for each. -/
def popDescLoop : List Card → List Nat → Option (List Card)
  | h, [] => some h
  | h, i :: rest =>
    match pyPop h ((i : Int) - 1) with
    | none => none
    | some h2 => popDescLoop h2 rest

/-- Group removal done highest-index-first. -/
def removeGroupDesc (hand : List Card) (inds : List Nat) : Option (List Card) :=
  popDescLoop hand (inds.insertionSort (· ≤ ·)).reverse

-- quick sanity checks against the docstring examples
example :
    is_valid_run [⟨2,3⟩, ⟨3,8⟩, ⟨2,5⟩] [1, 2, 3] ⟨0,8⟩ = some [true, false] := by
  decide

example :
    is_valid_set [⟨3,11⟩, ⟨1,11⟩, ⟨1,8⟩] [1, 2, 3] ⟨0,8⟩ = some [true, false] := by
  decide

example :
    is_valid_set [⟨3,11⟩, ⟨1,11⟩, ⟨2,11⟩] [1, 2, 3] ⟨0,2⟩ = some [true, true] := by
  decide

example : removeGroup [⟨0,1⟩, ⟨0,2⟩, ⟨0,3⟩, ⟨0,4⟩] [2, 4, 1] = some [⟨0,3⟩] := by
  decide

-- the C2 session: a failed-but-natural set check followed by a valid
-- wild-using run that empties the hand is declared a win
example :
    runWinCheck ⟨3,2⟩
      ⟨[⟨2,3⟩, ⟨2,5⟩, ⟨2,7⟩, ⟨0,2⟩, ⟨1,2⟩], [⟨2,3⟩, ⟨2,5⟩, ⟨2,7⟩, ⟨0,2⟩, ⟨1,2⟩],
        false, none⟩
      [.cset [1, 2, 3], .crun [1, 2, 3, 4, 5]] =
    (⟨[⟨2,3⟩, ⟨2,5⟩, ⟨2,7⟩, ⟨0,2⟩, ⟨1,2⟩], [], true, some [false, true]⟩, .won) := by
  decide

-- all-wild selections are accepted by both validators
example : is_valid_set [⟨0,8⟩, ⟨1,8⟩, ⟨2,8⟩] [1, 2, 3] ⟨3,8⟩ = some [true, false] := by
  decide

example : is_valid_run [⟨0,8⟩, ⟨1,8⟩, ⟨2,8⟩] [1, 2, 3] ⟨3,8⟩ = some [true, false] := by
  decide

/-! ## Helper lemmas -/

theorem runWildPass_eq (wc : Card) (l : List Card) :
    runWildPass wc l = (nonWilds wc l, wildCount wc l) := by
  induction l with
  | nil => rfl
  | cons c t ih =>
    simp only [runWildPass, ih, nonWilds, wildCount, List.filter_cons]
    cases h : isWildFor wc c <;> simp [h, nonWilds, wildCount]

theorem setWildPass_snd_zero (wc : Card) :
    ∀ l : List Card, (setWildPass wc l).2 = 0 ↔ wildCount wc l = 0
  | [] => by simp [setWildPass, wildCount]
  | [c] => by
    cases h : isWildFor wc c <;>
      simp [setWildPass, h, wildCount, List.filter_cons]
  | c :: d :: rest => by
    cases h : isWildFor wc c with
    | true => simp [setWildPass, h, wildCount, List.filter_cons]
    | false =>
      have ih := setWildPass_snd_zero wc (d :: rest)
      simp [setWildPass, h, wildCount, List.filter_cons] at ih ⊢
      exact ih

theorem nat_beq_decide (a b : Nat) : (a == b) = decide (a = b) := by
  cases h : a == b
  · simp only [beq_eq_false_iff_ne, ne_eq] at h
    simp [h]
  · simp only [beq_iff_eq] at h
    simp [h]

theorem dedup_len_one {l : List Nat} :
    l.dedup.length = 1 ↔ l ≠ [] ∧ ∀ a ∈ l, ∀ b ∈ l, a = b := by
  constructor
  · intro h
    obtain ⟨a, ha⟩ := List.length_eq_one.mp h
    refine ⟨?_, ?_⟩
    · intro hnil
      rw [hnil] at ha
      simp at ha
    · intro x hx y hy
      have hx' : x ∈ l.dedup := List.mem_dedup.mpr hx
      have hy' : y ∈ l.dedup := List.mem_dedup.mpr hy
      rw [ha, List.mem_singleton] at hx' hy'
      rw [hx', hy']
  · rintro ⟨hne, hall⟩
    have hnd : l.dedup.Nodup := List.nodup_dedup l
    cases hd : l.dedup with
    | nil =>
      exact absurd ((List.dedup_eq_nil l).mp hd) hne
    | cons x t =>
      cases t with
      | nil => rfl
      | cons y t2 =>
        exfalso
        have hx : x ∈ l := List.mem_dedup.mp (by rw [hd]; simp)
        have hy : y ∈ l := List.mem_dedup.mp (by rw [hd]; simp)
        have hxy : x = y := hall x hx y hy
        rw [hd, List.nodup_cons] at hnd
        exact hnd.1 (by simp [hxy])

theorem selectCards_length (h : List Card) :
    ∀ (inds : List Nat) (cards : List Card),
      selectCards h inds = some cards → cards.length = inds.length := by
  intro inds
  induction inds with
  | nil =>
    intro cards hc
    rw [selectCards, List.mapM_nil] at hc
    simp at hc
    simp [← hc]
  | cons i rest ih =>
    intro cards hc
    rw [selectCards, List.mapM_cons] at hc
    cases hp : pyIndex h i with
    | none => rw [hp] at hc; simp at hc
    | some c =>
      rw [hp] at hc
      cases hr : List.mapM (pyIndex h) rest with
      | none => rw [hr] at hc; simp at hc
      | some cs =>
        rw [hr] at hc
        simp at hc
        have := ih cs hr
        simp [← hc, this]

theorem is_valid_set_eq (hand : List Card) (inds : List Nat) (wc : Card)
    (cards : List Card) (h3 : 3 ≤ inds.length)
    (hsel : selectCards hand inds = some cards) :
    is_valid_set hand inds wc =
      some [(((setWildPass wc cards).1.map Card.rank).dedup.length == 1),
            ((setWildPass wc cards).2 == 0)] := by
  rw [is_valid_set, if_neg (by omega), hsel]
  rfl

theorem is_valid_run_eq (hand : List Card) (inds : List Nat) (wc : Card)
    (cards : List Card) (h3 : 3 ≤ inds.length)
    (hsel : selectCards hand inds = some cards) :
    is_valid_run hand inds wc =
      some [runScan (wildCount wc cards : Int)
              ((nonWilds wc cards).insertionSort suitRankLE),
            (wildCount wc cards == 0)] := by
  rw [is_valid_run, if_neg (by omega), hsel]
  simp [runWildPass_eq]

/-- C6: for every hand, wild card, and selection of at least 3 indices that
resolve to cards, each validator's isNatural component (position 1 of the
result) is true iff the number of wild cards in the selection is exactly 0;
in particular a run that used at least one wild card is non-natural. -/
theorem C6_natural_iff_zero_wilds (hand : List Card) (inds : List Nat)
    (wc : Card) (cards : List Card) (h3 : 3 ≤ inds.length)
    (hsel : selectCards hand inds = some cards) :
    (is_valid_set hand inds wc).map (fun l => l.getD 1 false) =
        some (decide (wildCount wc cards = 0)) ∧
    (is_valid_run hand inds wc).map (fun l => l.getD 1 false) =
        some (decide (wildCount wc cards = 0)) := by
  have hb : ((setWildPass wc cards).2 == 0) = decide (wildCount wc cards = 0) := by
    rw [nat_beq_decide]
    exact decide_eq_decide.mpr (setWildPass_snd_zero wc cards)
  have hb2 : (wildCount wc cards == 0) = decide (wildCount wc cards = 0) :=
    nat_beq_decide _ _
  constructor
  · rw [is_valid_set_eq hand inds wc cards h3 hsel]
    simp only [Option.map_some']
    rw [show ∀ (a b : Bool), ([a, b] : List Bool).getD 1 false = b from
      fun a b => rfl]
    rw [hb]
  · rw [is_valid_run_eq hand inds wc cards h3 hsel]
    simp only [Option.map_some']
    rw [show ∀ (a b : Bool), ([a, b] : List Bool).getD 1 false = b from
      fun a b => rfl]
    rw [hb2]

/-- Witness for C6 at a concrete natural selection. -/
theorem C6_witness :
    (3 ≤ ([1, 2, 3] : List Nat).length ∧
      selectCards [⟨2,3⟩, ⟨2,5⟩, ⟨2,7⟩] [1, 2, 3] =
        some [⟨2,3⟩, ⟨2,5⟩, ⟨2,7⟩]) ∧
    ((is_valid_set [⟨2,3⟩, ⟨2,5⟩, ⟨2,7⟩] [1, 2, 3] ⟨0,8⟩).map
        (fun l => l.getD 1 false) =
      some (decide (wildCount ⟨0,8⟩ [⟨2,3⟩, ⟨2,5⟩, ⟨2,7⟩] = 0)) ∧
      (is_valid_run [⟨2,3⟩, ⟨2,5⟩, ⟨2,7⟩] [1, 2, 3] ⟨0,8⟩).map
        (fun l => l.getD 1 false) =
      some (decide (wildCount ⟨0,8⟩ [⟨2,3⟩, ⟨2,5⟩, ⟨2,7⟩] = 0))) :=
  ⟨⟨by decide, by decide⟩,
    C6_natural_iff_zero_wilds [⟨2,3⟩, ⟨2,5⟩, ⟨2,7⟩] [1, 2, 3] ⟨0,8⟩
      [⟨2,3⟩, ⟨2,5⟩, ⟨2,7⟩] (by decide) (by decide)⟩

/-- C1 counterexample.  Left input: hand Clubs-8, Diamonds-8, Spades-King
with wild rank 8 and selection [1,2,3].  Its only non-wild card is
Spades-King, so the claimed condition holds (one non-wild rank, counts add
up, no duplicate indices), yet the code reports invalid: the enumerate-pop
pass removes Clubs-8, skips Diamonds-8, and leaves ranks 8 and 13 behind.
Right input: the duplicate selection [1,1,1] of a single Spades-5 is
reported valid although the claim requires duplicate indices be rejected. -/
theorem C1_counterexample :
    (is_valid_set [⟨0,8⟩, ⟨1,8⟩, ⟨3,13⟩] [1, 2, 3] ⟨2,8⟩ = some [false, false] ∧
      selectCards [⟨0,8⟩, ⟨1,8⟩, ⟨3,13⟩] [1, 2, 3] =
        some [⟨0,8⟩, ⟨1,8⟩, ⟨3,13⟩] ∧
      specSetValid ⟨2,8⟩ [1, 2, 3] [⟨0,8⟩, ⟨1,8⟩, ⟨3,13⟩]) ∧
    (is_valid_set [⟨3,5⟩, ⟨2,9⟩, ⟨1,10⟩] [1, 1, 1] ⟨2,8⟩ = some [true, true] ∧
      selectCards [⟨3,5⟩, ⟨2,9⟩, ⟨1,10⟩] [1, 1, 1] =
        some [⟨3,5⟩, ⟨3,5⟩, ⟨3,5⟩] ∧
      ¬ specSetValid ⟨2,8⟩ [1, 1, 1] [⟨3,5⟩, ⟨3,5⟩, ⟨3,5⟩]) := by
  decide

/-- C1 (amended): for every hand, wild card, and selection of at least 3
indices that resolve to cards, the set validator reports isValid true iff
the remainder left by its single forward wild-removal pass (which, after
removing a wild card, skips the card that slides into its position) is
nonempty and all of its cards share one rank.  Duplicate indices are not
rejected. -/
theorem C1_set_validity_amended (hand : List Card) (inds : List Nat)
    (wc : Card) (cards : List Card) (h3 : 3 ≤ inds.length)
    (hsel : selectCards hand inds = some cards) :
    (is_valid_set hand inds wc).map (fun l => l.getD 0 false) =
      some (decide ((setWildPass wc cards).1 ≠ [] ∧
        sameRank (setWildPass wc cards).1)) := by
  rw [is_valid_set_eq hand inds wc cards h3 hsel]
  simp only [Option.map_some']
  rw [show ∀ (a b : Bool), ([a, b] : List Bool).getD 0 false = a from
    fun a b => rfl]
  rw [nat_beq_decide]
  congr 1
  apply decide_eq_decide.mpr
  rw [dedup_len_one]
  constructor
  · rintro ⟨h1, h2⟩
    refine ⟨fun hn => h1 (by simp [hn]), ?_⟩
    intro c hc d hd
    exact h2 _ (List.mem_map_of_mem _ hc) _ (List.mem_map_of_mem _ hd)
  · rintro ⟨h1, h2⟩
    refine ⟨by simpa using h1, ?_⟩
    intro a ha b hb
    obtain ⟨c, hc, rfl⟩ := List.mem_map.mp ha
    obtain ⟨d, hd, rfl⟩ := List.mem_map.mp hb
    exact h2 c hc d hd

/-- Witness for C1 (amended). -/
theorem C1_witness :
    (3 ≤ ([1, 2, 3] : List Nat).length ∧
      selectCards [⟨0,8⟩, ⟨1,8⟩, ⟨3,13⟩] [1, 2, 3] =
        some [⟨0,8⟩, ⟨1,8⟩, ⟨3,13⟩]) ∧
    (is_valid_set [⟨0,8⟩, ⟨1,8⟩, ⟨3,13⟩] [1, 2, 3] ⟨2,8⟩).map
        (fun l => l.getD 0 false) =
      some (decide ((setWildPass ⟨2,8⟩ [⟨0,8⟩, ⟨1,8⟩, ⟨3,13⟩]).1 ≠ [] ∧
        sameRank (setWildPass ⟨2,8⟩ [⟨0,8⟩, ⟨1,8⟩, ⟨3,13⟩]).1)) :=
  ⟨⟨by decide, by decide⟩,
    C1_set_validity_amended [⟨0,8⟩, ⟨1,8⟩, ⟨3,13⟩] [1, 2, 3] ⟨2,8⟩
      [⟨0,8⟩, ⟨1,8⟩, ⟨3,13⟩] (by decide) (by decide)⟩

/-- C4 counterexample: the all-wild selection Clubs-8, Diamonds-8, Hearts-8
with wild rank 8 is reported VALID (and non-natural) by both validators,
contradicting the claim that both report it invalid. -/
theorem C4_counterexample :
    is_valid_set [⟨0,8⟩, ⟨1,8⟩, ⟨2,8⟩] [1, 2, 3] ⟨3,8⟩ = some [true, false] ∧
    is_valid_run [⟨0,8⟩, ⟨1,8⟩, ⟨2,8⟩] [1, 2, 3] ⟨3,8⟩ = some [true, false] ∧
    (∀ c ∈ ([⟨0,8⟩, ⟨1,8⟩, ⟨2,8⟩] : List Card), isWildFor ⟨3,8⟩ c = true) := by
  decide

/-- C4 (amended): an all-wild selection is NOT rejected: the run validator
reports every all-wild selection of at least 3 indices as valid (and
non-natural), and the set validator reports every all-wild selection of
exactly 3 indices as valid (and non-natural). -/
theorem C4_all_wild_accepted (hand : List Card) (inds : List Nat) (wc : Card)
    (cards : List Card) (hsel : selectCards hand inds = some cards)
    (hw : ∀ c ∈ cards, isWildFor wc c = true) :
    (3 ≤ inds.length → is_valid_run hand inds wc = some [true, false]) ∧
    (inds.length = 3 → is_valid_set hand inds wc = some [true, false]) := by
  have hlen : cards.length = inds.length := selectCards_length hand inds cards hsel
  constructor
  · intro h3
    rw [is_valid_run_eq hand inds wc cards h3 hsel]
    have hnw : nonWilds wc cards = [] := by
      rw [nonWilds, List.filter_eq_nil_iff]
      intro c hc
      simp [hw c hc]
    have hwc : wildCount wc cards = cards.length := by
      rw [wildCount, List.filter_eq_self.mpr hw]
    rw [hnw, hwc]
    have : (cards.length == 0) = false := by
      rw [beq_eq_false_iff_ne]
      omega
    rw [this]
    rfl
  · intro h3
    have : cards.length = 3 := by omega
    obtain ⟨a, b, c, rfl⟩ := List.length_eq_three.mp this
    rw [is_valid_set_eq hand inds wc _ (by omega) hsel]
    have ha := hw a (by simp)
    have hc := hw c (by simp)
    simp [setWildPass, ha, hc]

/-- Witness for C4 (amended). -/
theorem C4_witness :
    (selectCards [⟨0,8⟩, ⟨1,8⟩, ⟨2,8⟩] [1, 2, 3] =
        some [⟨0,8⟩, ⟨1,8⟩, ⟨2,8⟩] ∧
      ∀ c ∈ ([⟨0,8⟩, ⟨1,8⟩, ⟨2,8⟩] : List Card), isWildFor ⟨3,8⟩ c = true) ∧
    ((3 ≤ ([1, 2, 3] : List Nat).length →
        is_valid_run [⟨0,8⟩, ⟨1,8⟩, ⟨2,8⟩] [1, 2, 3] ⟨3,8⟩ =
          some [true, false]) ∧
      (([1, 2, 3] : List Nat).length = 3 →
        is_valid_set [⟨0,8⟩, ⟨1,8⟩, ⟨2,8⟩] [1, 2, 3] ⟨3,8⟩ =
          some [true, false])) :=
  ⟨⟨by decide, by decide⟩,
    C4_all_wild_accepted [⟨0,8⟩, ⟨1,8⟩, ⟨2,8⟩] [1, 2, 3] ⟨3,8⟩
      [⟨0,8⟩, ⟨1,8⟩, ⟨2,8⟩] (by decide) (by decide)⟩

/-! ## Characterising `is_valid_run` (claim C3) -/

theorem bool_eq_decide {b : Bool} {P : Prop} [Decidable P]
    (h : b = true ↔ P) : b = decide P := by
  by_cases hp : P
  · rw [h.mpr hp, decide_eq_true hp]
  · have hb : b = false := by
      cases b
      · rfl
      · exact absurd (h.mp rfl) hp
    rw [hb, decide_eq_false hp]

instance : IsTotal Card suitRankLE :=
  ⟨fun a b => by unfold suitRankLE; omega⟩

instance : IsTrans Card suitRankLE :=
  ⟨fun a b c hab hbc => by unfold suitRankLE at hab hbc ⊢; omega⟩

instance : IsTotal Card rankLE :=
  ⟨fun a b => by unfold rankLE; omega⟩

instance : IsTrans Card rankLE :=
  ⟨fun a b c hab hbc => by unfold rankLE at hab hbc ⊢; omega⟩

/-- Same suit and rank no larger: the order both sorts agree on when all
suits coincide. -/
def pairLE (c d : Card) : Prop := c.suit = d.suit ∧ c.rank ≤ d.rank

instance : IsAntisymm Card pairLE :=
  ⟨fun a b hab hba => by
    obtain ⟨hs1, hr1⟩ := hab
    obtain ⟨hs2, hr2⟩ := hba
    exact Card.ext hs1 (by omega)⟩

theorem gapSumZ_nonneg : ∀ l : List Card, List.Chain' pairOK l → 0 ≤ gapSumZ l
  | [] => by intro _; simp [gapSumZ]
  | [a] => by intro _; simp [gapSumZ]
  | a :: b :: t => by
    intro h
    rw [List.chain'_cons] at h
    have ih := gapSumZ_nonneg (b :: t) h.2
    have hab : a.suit = b.suit ∧ a.rank < b.rank := h.1
    rw [gapSumZ]
    have hlt := hab.2
    omega

theorem runWalk_iff : ∀ (l : List Card) (prev : Card) (budget : Int),
    0 ≤ budget → List.Chain' suitRankLE (prev :: l) →
    (runWalk budget prev l = true ↔
      List.Chain' pairOK (prev :: l) ∧ gapSumZ (prev :: l) ≤ budget)
  | [], prev, budget, hb, _ => by
    simp [runWalk, gapSumZ, hb]
  | c :: t, prev, budget, hb, hchain => by
    rw [List.chain'_cons] at hchain
    obtain ⟨hpc, hchain2⟩ := hchain
    unfold suitRankLE at hpc
    rw [runWalk, List.chain'_cons]
    have hgap : gapSumZ (prev :: c :: t) =
        ((c.rank : Int) - (prev.rank : Int) - 1) + gapSumZ (c :: t) := rfl
    by_cases h1 : c.suit ≠ prev.suit ∨ c.rank = prev.rank
    · rw [if_pos h1]
      constructor
      · intro hf
        simp at hf
      · rintro ⟨⟨hp, _⟩, _⟩
        have hp' : prev.suit = c.suit ∧ prev.rank < c.rank := hp
        exfalso
        rcases h1 with h | h
        · exact h hp'.1.symm
        · omega
    · rw [if_neg h1]
      push_neg at h1
      obtain ⟨hs, hne⟩ := h1
      have hlt : prev.rank < c.rank := by omega
      have hpok : pairOK prev c := ⟨hs.symm, hlt⟩
      by_cases h2 : c.rank = prev.rank + 1
      · rw [if_pos h2]
        rw [runWalk_iff t c budget hb hchain2]
        constructor
        · rintro ⟨hch, hg⟩
          exact ⟨⟨hpok, hch⟩, by rw [hgap]; omega⟩
        · rintro ⟨⟨_, hch⟩, hg⟩
          rw [hgap] at hg
          exact ⟨hch, by omega⟩
      · rw [if_neg h2]
        by_cases h3 : (c.rank : Int) ≤ budget + (prev.rank : Int) + 1
        · rw [if_pos h3]
          have hb2 : 0 ≤ budget - ((c.rank : Int) - (prev.rank : Int) - 1) := by
            omega
          rw [runWalk_iff t c _ hb2 hchain2]
          constructor
          · rintro ⟨hch, hg⟩
            exact ⟨⟨hpok, hch⟩, by rw [hgap]; omega⟩
          · rintro ⟨⟨_, hch⟩, hg⟩
            rw [hgap] at hg
            exact ⟨hch, by omega⟩
        · rw [if_neg h3]
          constructor
          · intro hf
            simp at hf
          · rintro ⟨⟨_, hch⟩, hg⟩
            exfalso
            have hnn : 0 ≤ gapSumZ (c :: t) := gapSumZ_nonneg _ hch
            rw [hgap] at hg
            omega

theorem runScan_iff (l : List Card) (budget : Int) (hb : 0 ≤ budget)
    (hs : List.Chain' suitRankLE l) :
    runScan budget l = true ↔ List.Chain' pairOK l ∧ gapSumZ l ≤ budget := by
  cases l with
  | nil => simp [runScan, gapSumZ, hb]
  | cons c t => exact runWalk_iff t c budget hb hs

theorem chain_suits_eq : ∀ (a : Card) (l : List Card),
    List.Chain' pairOK (a :: l) → ∀ c ∈ a :: l, c.suit = a.suit
  | _, [] => by
    intro _ c hc
    rw [List.mem_singleton.mp hc]
  | a, b :: t => by
    intro h c hc
    rw [List.chain'_cons] at h
    obtain ⟨hab, ht⟩ := h
    have hab' : a.suit = b.suit ∧ a.rank < b.rank := hab
    rcases List.mem_cons.mp hc with rfl | hc2
    · rfl
    · have := chain_suits_eq b t ht c hc2
      omega

theorem chain_pairOK_sameSuit : ∀ l : List Card,
    List.Chain' pairOK l → sameSuit l
  | [] => by
    intro _ c hc
    simp at hc
  | a :: t => by
    intro h c hc d hd
    rw [chain_suits_eq a t h c hc, chain_suits_eq a t h d hd]

theorem sameSuit_of_perm {l1 l2 : List Card} (hp : l1.Perm l2)
    (h : sameSuit l1) : sameSuit l2 :=
  fun c hc d hd => h c (hp.mem_iff.mpr hc) d (hp.mem_iff.mpr hd)

/-- When all cards share one suit, sorting by (suit, rank) and sorting by
rank alone give the same list. -/
theorem sorts_agree {ns : List Card} (h : sameSuit ns) :
    ns.insertionSort suitRankLE = ns.insertionSort rankLE := by
  apply List.eq_of_perm_of_sorted (r := pairLE)
  · exact (List.perm_insertionSort suitRankLE ns).trans
      (List.perm_insertionSort rankLE ns).symm
  · have hsort := List.sorted_insertionSort suitRankLE ns
    have hss : sameSuit (ns.insertionSort suitRankLE) :=
      sameSuit_of_perm (List.perm_insertionSort suitRankLE ns).symm h
    refine List.Pairwise.imp_of_mem ?_ hsort
    intro a b ha hb hab
    rcases hab with hlt | ⟨hse, hle⟩
    · exfalso
      have := hss a ha b hb
      omega
    · exact ⟨hse, hle⟩
  · have hsort := List.sorted_insertionSort rankLE ns
    have hss : sameSuit (ns.insertionSort rankLE) :=
      sameSuit_of_perm (List.perm_insertionSort rankLE ns).symm h
    refine List.Pairwise.imp_of_mem ?_ hsort
    intro a b ha hb hab
    exact ⟨hss a ha b hb, hab⟩

theorem chain_rank_iff_pairOK : ∀ {l : List Card}, sameSuit l →
    (List.Chain' (fun a b => a.rank < b.rank) l ↔ List.Chain' pairOK l)
  | [] => by intro _; simp
  | [_] => by intro _; simp
  | a :: b :: t => by
    intro h
    rw [List.chain'_cons, List.chain'_cons]
    have hsub : sameSuit (b :: t) := fun c hc d hd =>
      h c (List.mem_cons_of_mem a hc) d (List.mem_cons_of_mem a hd)
    rw [chain_rank_iff_pairOK hsub]
    have hab : a.suit = b.suit := h a (by simp) b (by simp)
    constructor
    · rintro ⟨h1, h2⟩
      exact ⟨⟨hab, h1⟩, h2⟩
    · rintro ⟨h1, h2⟩
      have h1' : a.suit = b.suit ∧ a.rank < b.rank := h1
      exact ⟨h1'.2, h2⟩

/-- C3: for every hand, wild card, and selection of at least 3 indices that
resolve to cards, the run validator's isValid is true iff all non-wild cards
share one suit, the rank-sorted non-wild cards have pairwise distinct ranks,
and the wild cards needed to fill all internal rank gaps (g - 1 for a gap
of g) fit within the selection's total wild budget; isNatural is true iff
the wild count is 0.  The witness instantiates this at the spec's example
selection Hearts-3, Spades-8, Hearts-5 with wild rank 8. -/
theorem C3_run_validity (hand : List Card) (inds : List Nat) (wc : Card)
    (cards : List Card) (h3 : 3 ≤ inds.length)
    (hsel : selectCards hand inds = some cards) :
    is_valid_run hand inds wc =
      some [decide (specRunValid wc cards), decide (wildCount wc cards = 0)] := by
  rw [is_valid_run_eq hand inds wc cards h3 hsel]
  have hnat := nat_beq_decide (wildCount wc cards) 0
  have hvalid : runScan (wildCount wc cards : Int)
      ((nonWilds wc cards).insertionSort suitRankLE) =
      decide (specRunValid wc cards) := by
    apply bool_eq_decide
    have hb : (0 : Int) ≤ (wildCount wc cards : Int) := Int.natCast_nonneg _
    have hch : List.Chain' suitRankLE
        ((nonWilds wc cards).insertionSort suitRankLE) :=
      (List.sorted_insertionSort suitRankLE (nonWilds wc cards)).chain'
    rw [runScan_iff _ _ hb hch]
    unfold specRunValid
    constructor
    · rintro ⟨hch1, hg⟩
      have hss1 : sameSuit ((nonWilds wc cards).insertionSort suitRankLE) :=
        chain_pairOK_sameSuit _ hch1
      have hssns : sameSuit (nonWilds wc cards) :=
        sameSuit_of_perm (List.perm_insertionSort suitRankLE _) hss1
      have heq := sorts_agree hssns
      refine ⟨hssns, ?_, ?_⟩
      · rw [← heq]
        exact (chain_rank_iff_pairOK hss1).mpr hch1
      · rw [← heq]
        exact hg
    · rintro ⟨hssns, hchr, hg⟩
      have heq := sorts_agree hssns
      have hss2 : sameSuit ((nonWilds wc cards).insertionSort rankLE) :=
        sameSuit_of_perm (List.perm_insertionSort rankLE _).symm hssns
      constructor
      · rw [heq]
        exact (chain_rank_iff_pairOK hss2).mp hchr
      · rw [heq]
        exact hg
  rw [hvalid, hnat]

/-- Witness for C3: the docstring example (Hearts-3, Spades-8, Hearts-5 with
wild rank 8) is a valid, non-natural run. -/
theorem C3_witness :
    (3 ≤ ([1, 2, 3] : List Nat).length ∧
      selectCards [⟨2,3⟩, ⟨3,8⟩, ⟨2,5⟩] [1, 2, 3] =
        some [⟨2,3⟩, ⟨3,8⟩, ⟨2,5⟩] ∧
      specRunValid ⟨0,8⟩ [⟨2,3⟩, ⟨3,8⟩, ⟨2,5⟩] ∧
      wildCount ⟨0,8⟩ [⟨2,3⟩, ⟨3,8⟩, ⟨2,5⟩] = 1) ∧
    is_valid_run [⟨2,3⟩, ⟨3,8⟩, ⟨2,5⟩] [1, 2, 3] ⟨0,8⟩ =
      some [decide (specRunValid ⟨0,8⟩ [⟨2,3⟩, ⟨3,8⟩, ⟨2,5⟩]),
            decide (wildCount ⟨0,8⟩ [⟨2,3⟩, ⟨3,8⟩, ⟨2,5⟩] = 0)] :=
  ⟨⟨by decide, by decide, by decide, by decide⟩,
    C3_run_validity [⟨2,3⟩, ⟨3,8⟩, ⟨2,5⟩] [1, 2, 3] ⟨0,8⟩
      [⟨2,3⟩, ⟨3,8⟩, ⟨2,5⟩] (by decide) (by decide)⟩

/-! ## Removing an accepted group (claim C5) -/

theorem keepNotIn_all_le : ∀ (h : List Card) (p : Nat) (s : List Nat),
    (∀ j ∈ s, j ≤ p) → keepNotIn h p s = h
  | [], _, _ => by
    intro _
    rfl
  | c :: t, p, s => by
    intro hs
    rw [keepNotIn, if_neg (fun hmem => by have := hs _ hmem; omega),
      keepNotIn_all_le t (p + 1) s (fun j hj => by have := hs j hj; omega)]

theorem keepNotIn_drop_small : ∀ (h : List Card) (p a : Nat) (s : List Nat),
    a ≤ p → keepNotIn h p (a :: s) = keepNotIn h p s
  | [], _, _, _ => by
    intro _
    rfl
  | c :: t, p, a, s => by
    intro ha
    rw [keepNotIn, keepNotIn]
    have hmem : ((p + 1) ∈ a :: s) ↔ ((p + 1) ∈ s) := by
      constructor
      · intro hm
        rcases List.mem_cons.mp hm with hEq | hm2
        · omega
        · exact hm2
      · exact fun hm => List.mem_cons_of_mem a hm
    by_cases hc : (p + 1) ∈ s
    · rw [if_pos (hmem.mpr hc), if_pos hc,
        keepNotIn_drop_small t (p + 1) a s (by omega)]
    · rw [if_neg (fun hx => hc (hmem.mp hx)), if_neg hc,
        keepNotIn_drop_small t (p + 1) a s (by omega)]

theorem keepNotIn_congr : ∀ (h : List Card) (p : Nat) (s1 s2 : List Nat),
    (∀ j, j ∈ s1 ↔ j ∈ s2) → keepNotIn h p s1 = keepNotIn h p s2
  | [], _, _, _ => by
    intro _
    rfl
  | c :: t, p, s1, s2 => by
    intro hmem
    rw [keepNotIn, keepNotIn]
    by_cases hc : (p + 1) ∈ s1
    · rw [if_pos hc, if_pos ((hmem _).mp hc),
        keepNotIn_congr t (p + 1) s1 s2 hmem]
    · rw [if_neg hc, if_neg (fun hx => hc ((hmem _).mpr hx)),
        keepNotIn_congr t (p + 1) s1 s2 hmem]

/-- Erasing at 0-based position `k` when all later submitted indices lie
beyond `p + k + 1` (the ascending-order step). -/
theorem keepNotIn_erase_asc : ∀ (k : Nat) (h : List Card) (p : Nat) (s : List Nat),
    k < h.length → (∀ j ∈ s, p + k + 1 < j) →
    keepNotIn h p ((p + k + 1) :: s) = keepNotIn (h.eraseIdx k) (p + 1) s
  | 0, [], p, s => by
    intro hk _
    simp at hk
  | 0, c :: t, p, s => by
    intro _ hs
    rw [keepNotIn, if_pos (by simp)]
    rw [keepNotIn_drop_small t (p + 1) (p + 0 + 1) s (by omega)]
    rfl
  | k + 1, [], p, s => by
    intro hk _
    simp at hk
  | k + 1, c :: t, p, s => by
    intro hk hs
    have hne : (p + 1) ∉ ((p + (k + 1) + 1) :: s) := by
      intro hm
      rcases List.mem_cons.mp hm with hEq | hm2
      · omega
      · have := hs _ hm2
        omega
    rw [keepNotIn, if_neg hne,
      show (c :: t).eraseIdx (k + 1) = c :: t.eraseIdx k from rfl,
      keepNotIn, if_neg (fun hm => by have := hs _ hm; omega)]
    congr 1
    rw [show p + (k + 1) + 1 = (p + 1) + k + 1 from by omega]
    exact keepNotIn_erase_asc k t (p + 1) s
      (by have := hk; simp at this ⊢; omega)
      (fun j hj => by have := hs j hj; omega)

/-- Erasing at 0-based position `k` when all later submitted indices lie
below `p + k + 1` (the descending-order step). -/
theorem keepNotIn_erase_desc : ∀ (k : Nat) (h : List Card) (p : Nat) (s : List Nat),
    k < h.length → (∀ j ∈ s, j < p + k + 1) →
    keepNotIn h p ((p + k + 1) :: s) = keepNotIn (h.eraseIdx k) p s
  | 0, [], p, s => by
    intro hk _
    simp at hk
  | 0, c :: t, p, s => by
    intro _ hs
    rw [keepNotIn, if_pos (by simp)]
    rw [keepNotIn_drop_small t (p + 1) (p + 0 + 1) s (by omega)]
    rw [show (c :: t).eraseIdx 0 = t from rfl]
    rw [keepNotIn_all_le t (p + 1) s (fun j hj => by have := hs j hj; omega),
      keepNotIn_all_le t p s (fun j hj => by have := hs j hj; omega)]
  | k + 1, [], p, s => by
    intro hk _
    simp at hk
  | k + 1, c :: t, p, s => by
    intro hk hs
    rw [show (c :: t).eraseIdx (k + 1) = c :: t.eraseIdx k from rfl]
    by_cases hc : (p + 1) ∈ s
    · rw [keepNotIn, if_pos (List.mem_cons_of_mem _ hc), keepNotIn, if_pos hc]
      rw [show p + (k + 1) + 1 = (p + 1) + k + 1 from by omega]
      exact keepNotIn_erase_desc k t (p + 1) s
        (by have := hk; simp at this ⊢; omega)
        (fun j hj => by have := hs j hj; omega)
    · have hne : (p + 1) ∉ ((p + (k + 1) + 1) :: s) := by
        intro hm
        rcases List.mem_cons.mp hm with hEq | hm2
        · omega
        · exact hc hm2
      rw [keepNotIn, if_neg hne, keepNotIn, if_neg hc]
      congr 1
      rw [show p + (k + 1) + 1 = (p + 1) + k + 1 from by omega]
      exact keepNotIn_erase_desc k t (p + 1) s
        (by have := hk; simp at this ⊢; omega)
        (fun j hj => by have := hs j hj; omega)

/-- The code's ascending removal loop, on strictly ascending in-range
indices, keeps exactly the cards whose submitted 1-based position is not
among the indices. -/
theorem popLoop_eq_keepNotIn : ∀ (inds : List Nat) (h : List Card) (d : Nat),
    List.Pairwise (· < ·) inds → (∀ i ∈ inds, d < i ∧ i ≤ d + h.length) →
    popLoop h inds d = some (keepNotIn h d inds)
  | [], h, d => by
    intro _ _
    rw [popLoop, keepNotIn_all_le h d [] (by simp)]
  | i :: rest, h, d => by
    intro hpw hin
    obtain ⟨hd, hle⟩ := hin i (by simp)
    have hlen : (i - 1 - d) < h.length := by omega
    have hpop : pyPop h ((i : Int) - 1 - (d : Int)) =
        some (h.eraseIdx (i - 1 - d)) := by
      simp only [pyPop]
      rw [if_neg (by omega : ¬((i : Int) - 1 - (d : Int) < 0))]
      rw [if_pos (⟨by omega, by omega⟩ :
        (0 : Int) ≤ (i : Int) - 1 - (d : Int) ∧
          (i : Int) - 1 - (d : Int) < (h.length : Int))]
      congr 1
      congr 1
      omega
    rw [popLoop, hpop]
    show popLoop (h.eraseIdx (i - 1 - d)) rest (d + 1) =
      some (keepNotIn h d (i :: rest))
    obtain ⟨hgt, hpw2⟩ := List.pairwise_cons.mp hpw
    have hlen2 : (h.eraseIdx (i - 1 - d)).length = h.length - 1 :=
      List.length_eraseIdx_of_lt hlen
    rw [popLoop_eq_keepNotIn rest (h.eraseIdx (i - 1 - d)) (d + 1) hpw2
      (fun j hj => by have h1 := hin j (List.mem_cons_of_mem i hj)
                      have h2 := hgt j hj
                      constructor <;> omega)]
    congr 1
    rw [show (i :: rest) = ((d + (i - 1 - d) + 1) :: rest) from by
      congr 1
      omega]
    exact (keepNotIn_erase_asc (i - 1 - d) h d rest hlen
      (fun j hj => by have := hgt j hj; omega)).symm

/-- Removing highest-index-first on strictly descending in-range indices
keeps exactly the cards whose 1-based position is not among the indices. -/
theorem popDescLoop_eq_keepNotIn : ∀ (inds : List Nat) (h : List Card),
    List.Pairwise (· > ·) inds → (∀ i ∈ inds, 1 ≤ i ∧ i ≤ h.length) →
    popDescLoop h inds = some (keepNotIn h 0 inds)
  | [], h => by
    intro _ _
    rw [popDescLoop, keepNotIn_all_le h 0 [] (by simp)]
  | i :: rest, h => by
    intro hpw hin
    obtain ⟨h1, hle⟩ := hin i (by simp)
    have hlen : (i - 1) < h.length := by omega
    have hpop : pyPop h ((i : Int) - 1) = some (h.eraseIdx (i - 1)) := by
      simp only [pyPop]
      rw [if_neg (by omega : ¬((i : Int) - 1 < 0))]
      rw [if_pos (⟨by omega, by omega⟩ :
        (0 : Int) ≤ (i : Int) - 1 ∧ (i : Int) - 1 < (h.length : Int))]
      congr 1
      congr 1
      omega
    rw [popDescLoop, hpop]
    show popDescLoop (h.eraseIdx (i - 1)) rest =
      some (keepNotIn h 0 (i :: rest))
    obtain ⟨hgt, hpw2⟩ := List.pairwise_cons.mp hpw
    have hlen2 : (h.eraseIdx (i - 1)).length = h.length - 1 :=
      List.length_eraseIdx_of_lt hlen
    rw [popDescLoop_eq_keepNotIn rest (h.eraseIdx (i - 1)) hpw2
      (fun j hj => by have ha := hin j (List.mem_cons_of_mem i hj)
                      have hb := hgt j hj
                      constructor <;> omega)]
    congr 1
    rw [show (i :: rest) = ((0 + (i - 1) + 1) :: rest) from by
      congr 1
      omega]
    exact (keepNotIn_erase_desc (i - 1) h 0 rest hlen
      (fun j hj => by have := hgt j hj; omega)).symm

/-- C5: for every working hand and every list of distinct in-range 1-based
indices, the code's removal (sort ascending, pop position
`i - 1 - deleted_counter`) succeeds and removes exactly the cards at the
submitted positions — it keeps precisely the cards whose position is not
among the indices — and it agrees with removing the indices
highest-index-first. -/
theorem C5_removal_equivalence (hand : List Card) (inds : List Nat)
    (hnd : inds.Nodup) (hin : ∀ i ∈ inds, 1 ≤ i ∧ i ≤ hand.length) :
    removeGroup hand inds = some (keepNotIn hand 0 inds) ∧
    removeGroupDesc hand inds = some (keepNotIn hand 0 inds) := by
  have hperm := List.perm_insertionSort (· ≤ · : Nat → Nat → Prop) inds
  have hsorted : List.Pairwise (· ≤ ·) (inds.insertionSort (· ≤ ·)) :=
    List.sorted_insertionSort _ inds
  have hnd2 : (inds.insertionSort (· ≤ ·)).Nodup := hperm.nodup_iff.mpr hnd
  have hlt : List.Pairwise (· < ·) (inds.insertionSort (· ≤ ·)) :=
    (hsorted.and hnd2).imp fun hab => lt_of_le_of_ne hab.1 hab.2
  have hmem : ∀ j, j ∈ inds.insertionSort (· ≤ ·) ↔ j ∈ inds :=
    fun j => hperm.mem_iff
  constructor
  · rw [removeGroup,
      popLoop_eq_keepNotIn (inds.insertionSort (· ≤ ·)) hand 0 hlt
        (fun i hi => by have := hin i ((hmem i).mp hi); omega)]
    rw [keepNotIn_congr hand 0 _ inds hmem]
  · have hgtrev : List.Pairwise (· > ·) (inds.insertionSort (· ≤ ·)).reverse :=
      List.pairwise_reverse.mpr hlt
    rw [removeGroupDesc,
      popDescLoop_eq_keepNotIn (inds.insertionSort (· ≤ ·)).reverse hand hgtrev
        (fun i hi => hin i ((hmem i).mp (List.mem_reverse.mp hi)))]
    rw [keepNotIn_congr hand 0 _ inds
      (fun j => (List.mem_reverse).trans (hmem j))]

/-- Witness for C5 on a concrete 4-card hand with indices submitted out of
order. -/
theorem C5_witness :
    (([2, 4, 1] : List Nat).Nodup ∧
      (∀ i ∈ ([2, 4, 1] : List Nat), 1 ≤ i ∧
        i ≤ ([⟨0,1⟩, ⟨0,2⟩, ⟨0,3⟩, ⟨0,4⟩] : List Card).length)) ∧
    (removeGroup [⟨0,1⟩, ⟨0,2⟩, ⟨0,3⟩, ⟨0,4⟩] [2, 4, 1] =
        some (keepNotIn [⟨0,1⟩, ⟨0,2⟩, ⟨0,3⟩, ⟨0,4⟩] 0 [2, 4, 1]) ∧
      removeGroupDesc [⟨0,1⟩, ⟨0,2⟩, ⟨0,3⟩, ⟨0,4⟩] [2, 4, 1] =
        some (keepNotIn [⟨0,1⟩, ⟨0,2⟩, ⟨0,3⟩, ⟨0,4⟩] 0 [2, 4, 1])) :=
  ⟨⟨by decide, by decide⟩,
    C5_removal_equivalence [⟨0,1⟩, ⟨0,2⟩, ⟨0,3⟩, ⟨0,4⟩] [2, 4, 1]
      (by decide) (by decide)⟩

/-! ## The win-check session: frame property (C7) and the natural-run flag
bug (C2) -/

/-- C7: throughout an entire win-check sub-phase — any number of group
validations, removals, resets, crashes, and an exit without winning — the
player's real hand is never mutated; removals touch only the working copy. -/
theorem winStep_real (wc : Card) (s : WinState) :
    ∀ cmd : WinCmd, (stepState (winStep wc s cmd)).real = s.real := by
  intro cmd
  cases cmd with
  | cexit => rfl
  | creset => rfl
  | cset inds =>
    rw [winStep]
    split
    · rfl
    · split
      · split
        · rfl
        · split
          · rfl
          · rfl
      · rfl
  | crun inds =>
    rw [winStep]
    split
    · rfl
    · split
      · split
        · rfl
        · split
          · rfl
          · rfl
          · rfl
          · split
            · rfl
            · rfl
      · rfl

theorem C7_real_hand_preserved (wc : Card) :
    ∀ (cmds : List WinCmd) (s : WinState),
      (runWinCheck wc s cmds).1.real = s.real
  | [], _ => rfl
  | cmd :: rest, s => by
    show (if s.working.length = 0 then (s, WinOutcome.exited)
          else match winStep wc s cmd with
            | .stop s2 o => (s2, o)
            | .go s2 => runWinCheck wc s2 rest).1.real = s.real
    split
    · rfl
    · have hstep := winStep_real wc s cmd
      cases hw : winStep wc s cmd with
      | stop s2 o =>
        rw [hw] at hstep
        exact hstep
      | go s2 =>
        rw [hw] at hstep
        have hrec := C7_real_hand_preserved wc rest s2
        rw [hrec]
        exact hstep

/-- C2 fails on the code (the run branch reads `set_flag`, not `run_flag`):
a session whose only ACCEPTED group is a wild-using (non-natural) run is
declared a win, because an earlier FAILED set validation with zero wilds
left `set_flag[1]` true.  Working hand: Hearts-3, Hearts-5, Hearts-7,
Clubs-2, Diamonds-2 with wild rank 2.  The set check of cards 1-3 is
invalid but natural; the run check of cards 1-5 is valid, uses both wild
2s, empties the hand, and the engine announces the win.  Conversely, a
lone valid natural run crashes with a `NameError` on the unbound
`set_flag`. -/
theorem C2_win_flag_bug :
    (runWinCheck ⟨3,2⟩
        ⟨[⟨2,3⟩, ⟨2,5⟩, ⟨2,7⟩, ⟨0,2⟩, ⟨1,2⟩],
          [⟨2,3⟩, ⟨2,5⟩, ⟨2,7⟩, ⟨0,2⟩, ⟨1,2⟩], false, none⟩
        [.cset [1, 2, 3], .crun [1, 2, 3, 4, 5]] =
      (⟨[⟨2,3⟩, ⟨2,5⟩, ⟨2,7⟩, ⟨0,2⟩, ⟨1,2⟩], [], true, some [false, true]⟩,
        .won) ∧
      is_valid_set [⟨2,3⟩, ⟨2,5⟩, ⟨2,7⟩, ⟨0,2⟩, ⟨1,2⟩] [1, 2, 3] ⟨3,2⟩ =
        some [false, true] ∧
      is_valid_run [⟨2,3⟩, ⟨2,5⟩, ⟨2,7⟩, ⟨0,2⟩, ⟨1,2⟩] [1, 2, 3, 4, 5] ⟨3,2⟩ =
        some [true, false]) ∧
    (runWinCheck ⟨3,12⟩
        ⟨[⟨2,3⟩, ⟨2,4⟩, ⟨2,5⟩], [⟨2,3⟩, ⟨2,4⟩, ⟨2,5⟩], false, none⟩
        [.crun [1, 2, 3]] =
      (⟨[⟨2,3⟩, ⟨2,4⟩, ⟨2,5⟩], [⟨2,3⟩, ⟨2,4⟩, ⟨2,5⟩], false, none⟩,
        .crashed) ∧
      is_valid_run [⟨2,3⟩, ⟨2,4⟩, ⟨2,5⟩] [1, 2, 3] ⟨3,12⟩ =
        some [true, true]) := by
  decide

/-! ## Draw phase (C8), deck recycling (C9), raw index handling (C10) -/

theorem remove_card_shape (hand : List Card) (k : Int) (disc : Card)
    (hand2 : List Card) (h : remove_card hand k = some (disc, hand2)) :
    ∃ j : Nat, j < hand.length ∧ hand[j]? = some disc ∧
      hand2 = hand.eraseIdx j := by
  unfold remove_card at h
  cases hn : pyNth hand k with
  | none =>
    rw [hn] at h
    simp at h
  | some c =>
    cases hp : pyPop hand k with
    | none =>
      rw [hn, hp] at h
      simp at h
    | some hh =>
      rw [hn, hp] at h
      simp at h
      obtain ⟨hc, hhh⟩ := h
      unfold pyNth at hn
      unfold pyPop at hp
      by_cases hcond : 0 ≤ (if k < 0 then k + hand.length else k) ∧
          (if k < 0 then k + hand.length else k) < (hand.length : Int)
      · rw [if_pos hcond] at hn hp
        refine ⟨(if k < 0 then k + hand.length else k).toNat, by omega, ?_, ?_⟩
        · rw [hn, hc]
        · rw [← hhh]
          injection hp with hp2
          rw [hp2]
      · rw [if_neg hcond] at hn
        simp at hn

/-- Shape of every successful discard-pile draw step. -/
theorem discardDrawStep_shape (hand pile : List Card) (choice : Nat)
    (h2 p2 : List Card)
    (hstep : discardDrawStep hand pile choice = some (h2, p2)) :
    ∃ (drawn : Card) (j : Nat) (c : Card),
      pile.getLast? = some drawn ∧ j < hand.length ∧ hand[j]? = some c ∧
      h2 = hand.eraseIdx j ++ [drawn] ∧ p2 = pile.dropLast ++ [c] ∧
      drawn ∈ h2 := by
  unfold discardDrawStep at hstep
  cases hp : pile.getLast? with
  | none =>
    rw [hp] at hstep
    simp at hstep
  | some drawn =>
    rw [hp] at hstep
    cases hr : remove_card hand ((choice : Int) - 1) with
    | none =>
      rw [hr] at hstep
      simp at hstep
    | some pr =>
      rw [hr] at hstep
      obtain ⟨disc, hand2⟩ := pr
      simp at hstep
      obtain ⟨hh, hpp⟩ := hstep
      obtain ⟨j, hj, hget, hrest⟩ := remove_card_shape hand _ disc hand2 hr
      refine ⟨drawn, j, disc, rfl, hj, hget, ?_, ?_, ?_⟩
      · rw [← hh, hrest]
      · rw [← hpp]
      · rw [← hh]
        simp

/-- C8 (amended): in a discard-pile draw the card to discard is chosen from
the OLD hand only — the code appends the drawn card to the hand only after
the discard — so the drawn card always joins the hand and is never available
for immediate discard. -/
theorem C8_discard_from_old_hand_only (hand pile : List Card) (choice : Nat)
    (h2 p2 : List Card)
    (hstep : discardDrawStep hand pile choice = some (h2, p2)) :
    ∃ (drawn : Card) (j : Nat) (c : Card),
      pile.getLast? = some drawn ∧ j < hand.length ∧ hand[j]? = some c ∧
      h2 = hand.eraseIdx j ++ [drawn] ∧ p2 = pile.dropLast ++ [c] ∧
      drawn ∈ h2 :=
  discardDrawStep_shape hand pile choice h2 p2 hstep

/-- Witness for C8 (amended). -/
theorem C8_witness :
    discardDrawStep [⟨0,1⟩, ⟨0,2⟩, ⟨0,3⟩] [⟨0,4⟩] 2 =
      some ([⟨0,1⟩, ⟨0,3⟩, ⟨0,4⟩], [⟨0,2⟩]) ∧
    (∃ (drawn : Card) (j : Nat) (c : Card),
      ([⟨0,4⟩] : List Card).getLast? = some drawn ∧
      j < ([⟨0,1⟩, ⟨0,2⟩, ⟨0,3⟩] : List Card).length ∧
      ([⟨0,1⟩, ⟨0,2⟩, ⟨0,3⟩] : List Card)[j]? = some c ∧
      [⟨0,1⟩, ⟨0,3⟩, ⟨0,4⟩] = ([⟨0,1⟩, ⟨0,2⟩, ⟨0,3⟩] : List Card).eraseIdx j ++ [drawn] ∧
      [⟨0,2⟩] = ([⟨0,4⟩] : List Card).dropLast ++ [c] ∧
      drawn ∈ ([⟨0,1⟩, ⟨0,3⟩, ⟨0,4⟩] : List Card)) :=
  ⟨by decide,
    C8_discard_from_old_hand_only [⟨0,1⟩, ⟨0,2⟩, ⟨0,3⟩] [⟨0,4⟩] 2
      [⟨0,1⟩, ⟨0,3⟩, ⟨0,4⟩] [⟨0,2⟩] (by decide)⟩

/-- C8 counterexample: with hand Clubs-Ace, Clubs-2, Clubs-3 and discard
pile topped by Clubs-4, no discard choice can put the freshly drawn Clubs-4
back onto the pile: the drawn card is NOT available for immediate discard,
contradicting the claim. -/
theorem C8_counterexample :
    ¬ ∃ (choice : Nat) (h2 p2 : List Card),
        discardDrawStep [⟨0,1⟩, ⟨0,2⟩, ⟨0,3⟩] [⟨0,4⟩] choice = some (h2, p2) ∧
        (⟨0,4⟩ : Card) ∈ p2 := by
  rintro ⟨choice, h2, p2, hstep, hmem⟩
  obtain ⟨drawn, j, c, hdrawn, hj, hget, hh, hp, _⟩ :=
    discardDrawStep_shape _ _ _ _ _ hstep
  rw [hp] at hmem
  simp at hmem
  rw [← hmem] at hget
  have hj3 : j < 3 := by simpa using hj
  interval_cases j <;> simp_all <;>
    exact absurd (hmem.trans hget.symm) (by decide)

/-- C9: whenever the deck is empty at a deck draw, recycling turns all
discard-pile cards except the top one into the new (reshuffled) deck and
leaves exactly the former top card as the new pile; for any shuffle that
permutes its input this preserves the multiset of cards, so
|Deck| + |DiscardPile| + Σ|Hands| + 1 is unchanged. -/
theorem C9_recycle_preserves_cards (shuffle : List Card → List Card)
    (pile : List Card) (hands : List (List Card)) (d2 p2 : List Card)
    (hsh : ∀ l : List Card, (shuffle l).Perm l)
    (hrec : recycleDiscard shuffle pile = some (d2, p2)) :
    ∃ top, pile.getLast? = some top ∧ p2 = [top] ∧
      d2.Perm pile.dropLast ∧ (d2 ++ p2).Perm pile ∧
      d2.length + p2.length + sumHands hands + 1 =
        0 + pile.length + sumHands hands + 1 := by
  unfold recycleDiscard at hrec
  cases hl : pile.getLast? with
  | none =>
    rw [hl] at hrec
    simp at hrec
  | some top =>
    rw [hl] at hrec
    simp at hrec
    obtain ⟨hd, hp⟩ := hrec
    have hne : pile ≠ [] := by
      intro hnil
      rw [hnil] at hl
      simp at hl
    have hperm : d2.Perm pile.dropLast := by
      rw [← hd]
      exact hsh _
    have htop : pile.dropLast ++ [top] = pile := by
      have := List.getLast?_eq_getLast pile hne
      rw [hl] at this
      injection this with hTop
      rw [hTop]
      exact List.dropLast_append_getLast hne
    refine ⟨top, rfl, hp.symm, hperm, ?_, ?_⟩
    · rw [← hp]
      have hap := hperm.append_right [top]
      rw [htop] at hap
      exact hap
    · have h1 : d2.length = pile.dropLast.length := hperm.length_eq
      have h2 : pile.dropLast.length + 1 = pile.length := by
        conv_rhs => rw [← htop]
        simp
      rw [← hp]
      simp only [List.length_singleton]
      omega

/-- Witness for C9 with `List.reverse` as the shuffle. -/
theorem C9_witness :
    ((∀ l : List Card, (List.reverse l).Perm l) ∧
      recycleDiscard List.reverse [⟨0,1⟩, ⟨0,2⟩, ⟨0,3⟩] =
        some ([⟨0,2⟩, ⟨0,1⟩], [⟨0,3⟩])) ∧
    (∃ top, ([⟨0,1⟩, ⟨0,2⟩, ⟨0,3⟩] : List Card).getLast? = some top ∧
      ([⟨0,3⟩] : List Card) = [top] ∧
      ([⟨0,2⟩, ⟨0,1⟩] : List Card).Perm ([⟨0,1⟩, ⟨0,2⟩, ⟨0,3⟩] : List Card).dropLast ∧
      (([⟨0,2⟩, ⟨0,1⟩] : List Card) ++ ([⟨0,3⟩] : List Card)).Perm
        ([⟨0,1⟩, ⟨0,2⟩, ⟨0,3⟩] : List Card) ∧
      ([⟨0,2⟩, ⟨0,1⟩] : List Card).length + ([⟨0,3⟩] : List Card).length +
          sumHands [[⟨1,1⟩, ⟨1,2⟩], [⟨2,1⟩]] + 1 =
        0 + ([⟨0,1⟩, ⟨0,2⟩, ⟨0,3⟩] : List Card).length +
          sumHands [[⟨1,1⟩, ⟨1,2⟩], [⟨2,1⟩]] + 1) :=
  ⟨⟨fun l => l.reverse_perm, by decide⟩,
    C9_recycle_preserves_cards List.reverse [⟨0,1⟩, ⟨0,2⟩, ⟨0,3⟩]
      [[⟨1,1⟩, ⟨1,2⟩], [⟨2,1⟩]] [⟨0,2⟩, ⟨0,1⟩] [⟨0,3⟩]
      (fun l => l.reverse_perm) (by decide)⟩

theorem pyIndex_zero_alias (h : List Card) : pyIndex h 0 = pyIndex h h.length := by
  cases h with
  | nil => rfl
  | cons c t =>
    rw [pyIndex, pyIndex, if_pos rfl, if_neg (by simp)]
    rw [List.getLast?_eq_getElem?]

theorem selectCards_none (h : List Card) :
    ∀ (inds : List Nat) (i : Nat), i ∈ inds → pyIndex h i = none →
      selectCards h inds = none
  | [], i => by
    intro hi _
    simp at hi
  | j :: rest, i => by
    intro hi hnone
    rw [selectCards, List.mapM_cons]
    rcases List.mem_cons.mp hi with rfl | hmem
    · rw [hnone]
      rfl
    · cases hp : pyIndex h j with
      | none => rfl
      | some c =>
        have hrec := selectCards_none h rest i hmem hnone
        rw [selectCards] at hrec
        rw [hrec]
        rfl

/-- C10: the validators resolve each submitted 1-based index `i` as
`hand[i-1]` with no range check.  (i) an index `i` greater than the hand
length raises (`pyIndex` is `none`, and a selection containing it makes
both validators raise instead of returning invalid); (ii) a submitted
index of 0 reads `hand[-1]`, i.e. it silently aliases the LAST position of
the hand rather than being rejected, so a selection beginning with 0 is
validated exactly like one beginning with the hand's length. -/
theorem C10_index_partiality :
    (∀ h : List Card, pyIndex h 0 = h.getLast? ∧
      pyIndex h 0 = pyIndex h h.length) ∧
    (∀ (h : List Card) (i : Nat), h.length < i → pyIndex h i = none) ∧
    (∀ (h : List Card) (inds : List Nat) (wc : Card), 3 ≤ inds.length →
      (∃ i ∈ inds, h.length < i) →
      is_valid_set h inds wc = none ∧ is_valid_run h inds wc = none) ∧
    (∀ (h : List Card) (inds : List Nat) (wc : Card),
      is_valid_set h (0 :: inds) wc = is_valid_set h (h.length :: inds) wc ∧
      is_valid_run h (0 :: inds) wc = is_valid_run h (h.length :: inds) wc) := by
  have hoob : ∀ (h : List Card) (i : Nat), h.length < i → pyIndex h i = none := by
    intro h i hlen
    rw [pyIndex, if_neg (by omega)]
    exact List.getElem?_eq_none (by omega)
  have hsel0 : ∀ (h : List Card) (inds : List Nat),
      selectCards h (0 :: inds) = selectCards h (h.length :: inds) := by
    intro h inds
    rw [selectCards, selectCards, List.mapM_cons, List.mapM_cons,
      pyIndex_zero_alias]
  refine ⟨?_, hoob, ?_, ?_⟩
  · intro h
    refine ⟨?_, pyIndex_zero_alias h⟩
    rw [pyIndex, if_pos rfl]
  · intro h inds wc h3 hex
    obtain ⟨i, hi, hlen⟩ := hex
    have hnone := selectCards_none h inds i hi (hoob h i hlen)
    constructor
    · rw [is_valid_set, if_neg (by omega), hnone]
      rfl
    · rw [is_valid_run, if_neg (by omega), hnone]
      rfl
  · intro h inds wc
    constructor
    · rw [is_valid_set, is_valid_set, hsel0]
      rw [show (0 :: inds).length = (h.length :: inds).length from by simp]
    · rw [is_valid_run, is_valid_run, hsel0]
      rw [show (0 :: inds).length = (h.length :: inds).length from by simp]

/-- Witness for C10: on the two-card hand Clubs-5, Diamonds-5 the selection
[1, 2, 9] makes both validators raise, and selections starting with index 0
behave exactly like selections starting with index 2 (the last position). -/
theorem C10_witness :
    ((3 ≤ ([1, 2, 9] : List Nat).length ∧
        (∃ i ∈ ([1, 2, 9] : List Nat),
          ([⟨0,5⟩, ⟨1,5⟩] : List Card).length < i)) ∧
      (is_valid_set [⟨0,5⟩, ⟨1,5⟩] [1, 2, 9] ⟨2,8⟩ = none ∧
        is_valid_run [⟨0,5⟩, ⟨1,5⟩] [1, 2, 9] ⟨2,8⟩ = none)) ∧
    (is_valid_set [⟨0,5⟩, ⟨1,5⟩] (0 :: [1, 2]) ⟨2,8⟩ =
        is_valid_set [⟨0,5⟩, ⟨1,5⟩]
          (([⟨0,5⟩, ⟨1,5⟩] : List Card).length :: [1, 2]) ⟨2,8⟩ ∧
      is_valid_run [⟨0,5⟩, ⟨1,5⟩] (0 :: [1, 2]) ⟨2,8⟩ =
        is_valid_run [⟨0,5⟩, ⟨1,5⟩]
          (([⟨0,5⟩, ⟨1,5⟩] : List Card).length :: [1, 2]) ⟨2,8⟩) :=
  ⟨⟨⟨by decide, by decide⟩,
      C10_index_partiality.2.2.1 [⟨0,5⟩, ⟨1,5⟩] [1, 2, 9] ⟨2,8⟩
        (by decide) (by decide)⟩,
    C10_index_partiality.2.2.2 [⟨0,5⟩, ⟨1,5⟩] [1, 2] ⟨2,8⟩⟩
